import Mathlib

/-!
# Fumohouse, `extensions/luau-script/src/luagd_bindings.h`

Verification development for the accessor generated by the macro
`LUA_BUILTIN_CONST(variant_type, const_name, const_type)`:

    [](lua_State *L) -> int {
        static bool __did_init;
        static Variant __const_value;
        if (!__did_init) {
            __did_init = true;
            internal::gdn_interface->variant_get_constant_value(
                GDNATIVE_VARIANT_TYPE_VECTOR2, #const_name, &__const_value);
        }
        LuaStackOp<const_type>::push(L, __const_value);
        return 1;
    }

The lambda is stateful (two function-local statics) and talks to two
collaborators that are declared outside this header: the engine interface
`gdn_interface` and the Lua conversion `LuaStackOp<const_type>::push`.  The
embedding threads an explicit `World` through every statement and keeps a
ghost trace of the calls made to the two collaborators, so that "is called
exactly once" becomes a statement about that trace; the claims are stated on
the real components as well: the statics, the engine state left by the engine
call and the Lua memory left by `push`.
-/

namespace LuaGD

/-- The two function-local statics of one expansion of `LUA_BUILTIN_CONST`
(lines 10 and 11). -/
structure Statics (V : Type) where
  did_init : Bool
  const_value : V

/-- One expansion of `LUA_BUILTIN_CONST(variant_type, const_name, const_type)`.
The three macro arguments are token texts; `site` identifies the expansion,
since every lambda expression owns its own pair of statics. -/
structure Expansion where
  site : Nat
  variant_type : String
  const_name : String
  const_type : String
  deriving DecidableEq, Repr

/-- The collaborators of the accessor, which this header only uses.
`VECTOR2` is the enumerator `GDNATIVE_VARIANT_TYPE_VECTOR2`; `nil` is the
default-constructed `Variant`; `variant_get_constant_value tag name out s` is
the engine call with out-parameter `&__const_value` currently holding `out`,
made in engine state `s`: it yields the out-parameter's content after the
call and the next engine state; `push const_type L v heap` is
`LuaStackOp<const_type>::push(L, v)` acting on the Lua memory (the argument
is passed read-only, so only the Lua side changes). -/
structure Host (Tag V σ H : Type) where
  VECTOR2 : Tag
  nil : V
  variant_get_constant_value : Tag → String → V → σ → V × σ
  push : String → Nat → V → H → H

/-- Ghost record of a call made by the accessor to a collaborator. -/
inductive Event (Tag V : Type) where
  | lookup (tag : Tag) (name : String)
  | push (const_type : String) (L : Nat) (value : V)
  deriving DecidableEq, Repr

/-- Whole-program state seen by the accessors: the statics of every
expansion (keyed by site), the engine state, the Lua memory, and the ghost
trace of collaborator calls, oldest first. -/
structure World (Tag V σ H : Type) where
  statics : Nat → Statics V
  engine : σ
  lua : H
  trace : List (Event Tag V)

variable {Tag V σ H : Type}

/-- State at program start: statics are zero-initialised / default
constructed, nothing has been called yet. -/
def World.init (h : Host Tag V σ H) (s : σ) (heap : H) : World Tag V σ H :=
  { statics := fun _ => { did_init := false, const_value := h.nil }
    engine := s
    lua := heap
    trace := [] }

/-- The statics belonging to expansion `e`. -/
def World.cache (w : World Tag V σ H) (e : Expansion) : Statics V :=
  w.statics e.site

/-- Line 15: `__did_init = true;`. -/
def stmtSetDidInit (e : Expansion) (w : World Tag V σ H) : World Tag V σ H :=
  { w with
    statics := Function.update w.statics e.site
      ⟨true, (w.statics e.site).const_value⟩ }

/-- Line 16: the engine call; the tag is the literal
`GDNATIVE_VARIANT_TYPE_VECTOR2`, the name is `#const_name`, and the result
lands in `__const_value`. -/
def stmtLookup (h : Host Tag V σ H) (e : Expansion) (w : World Tag V σ H) :
    World Tag V σ H :=
  let r := h.variant_get_constant_value h.VECTOR2 e.const_name
    (w.statics e.site).const_value w.engine
  { w with
    statics := Function.update w.statics e.site
      ⟨(w.statics e.site).did_init, r.1⟩
    engine := r.2
    trace := w.trace ++ [Event.lookup h.VECTOR2 e.const_name] }

/-- Line 19: `LuaStackOp<const_type>::push(L, __const_value);`. -/
def stmtPush (h : Host Tag V σ H) (e : Expansion) (L : Nat) (w : World Tag V σ H) :
    World Tag V σ H :=
  { w with
    lua := h.push e.const_type L (w.statics e.site).const_value w.lua
    trace := w.trace ++ [Event.push e.const_type L (w.statics e.site).const_value] }

/-- Lines 13 to 17: the guarded initialisation block. -/
def initBlock (h : Host Tag V σ H) (e : Expansion) (w : World Tag V σ H) :
    World Tag V σ H :=
  if !(w.statics e.site).did_init then stmtLookup h e (stmtSetDidInit e w) else w

/-- The generated accessor: lines 8 to 21, returning the result count and
the state it leaves behind. -/
def accessor (h : Host Tag V σ H) (e : Expansion) (L : Nat) (w : World Tag V σ H) :
    Int × World Tag V σ H :=
  (1, stmtPush h e L (initBlock h e w))

/-- Sequential invocations of one accessor, one per Lua state pointer in the
list, collecting the returned result counts. -/
def invokeAll (h : Host Tag V σ H) (e : Expansion) :
    List Nat → World Tag V σ H → List Int × World Tag V σ H
  | [], w => ([], w)
  | L :: Ls, w =>
    let r := accessor h e L w
    let rs := invokeAll h e Ls r.2
    (r.1 :: rs.1, rs.2)

/-- Sequential invocations of arbitrary accessors: each entry names the
expansion invoked and the Lua state pointer it is given. -/
def invokeSeq (h : Host Tag V σ H) :
    List (Expansion × Nat) → World Tag V σ H → List Int × World Tag V σ H
  | [], w => ([], w)
  | c :: cs, w =>
    let r := accessor h c.1 c.2 w
    let rs := invokeSeq h cs r.2
    (r.1 :: rs.1, rs.2)

/-- Number of engine lookups recorded in a trace. -/
def countLookups : List (Event Tag V) → Nat
  | [] => 0
  | Event.lookup _ _ :: t => countLookups t + 1
  | Event.push _ _ _ :: t => countLookups t

/-- Number of conversions recorded in a trace. -/
def countPushes : List (Event Tag V) → Nat
  | [] => 0
  | Event.lookup _ _ :: t => countPushes t
  | Event.push _ _ _ :: t => countPushes t + 1

/-- The values handed to `push`, in call order. -/
def pushedValues : List (Event Tag V) → List V
  | [] => []
  | Event.lookup _ _ :: t => pushedValues t
  | Event.push _ _ v :: t => v :: pushedValues t

/-- The lookups issued, in call order, as (tag, name) pairs. -/
def lookupsIssued : List (Event Tag V) → List (Tag × String)
  | [] => []
  | Event.lookup tag name :: t => (tag, name) :: lookupsIssued t
  | Event.push _ _ _ :: t => lookupsIssued t

/-! ## Interleaved callers

The same statements, executed one at a time by several callers of one
accessor.  A caller's control point says which statement it runs next. -/

/-- Control points of one invocation: before the test of line 13, before the
store of line 15, before the call of line 16, before the push of line 19,
and after `return 1`. -/
inductive PC where
  | entry
  | atSet
  | atLookup
  | atPush
  | returned
  deriving DecidableEq, Repr

/-- Shared state together with every caller's control point and, once it has
returned, its result count. -/
structure Conf (Tag V σ H : Type) where
  world : World Tag V σ H
  pc : Nat → PC
  ret : Nat → Option Int

/-- All callers are about to enter the accessor. -/
def Conf.start (w : World Tag V σ H) : Conf Tag V σ H :=
  { world := w, pc := fun _ => PC.entry, ret := fun _ => none }

/-- Caller `i`, whose Lua state pointer is `Ls i`, executes its next
statement of the accessor body. -/
def stepCaller (h : Host Tag V σ H) (e : Expansion) (Ls : Nat → Nat) (i : Nat)
    (c : Conf Tag V σ H) : Conf Tag V σ H :=
  match c.pc i with
  | PC.entry =>
    { world := c.world
      pc := Function.update c.pc i
        (if !(c.world.statics e.site).did_init then PC.atSet else PC.atPush)
      ret := c.ret }
  | PC.atSet =>
    { world := stmtSetDidInit e c.world
      pc := Function.update c.pc i PC.atLookup
      ret := c.ret }
  | PC.atLookup =>
    { world := stmtLookup h e c.world
      pc := Function.update c.pc i PC.atPush
      ret := c.ret }
  | PC.atPush =>
    { world := stmtPush h e (Ls i) c.world
      pc := Function.update c.pc i PC.returned
      ret := Function.update c.ret i (some 1) }
  | PC.returned => c

/-- Run a schedule: the list names, step by step, the caller that moves. -/
def runSchedule (h : Host Tag V σ H) (e : Expansion) (Ls : Nat → Nat) :
    List Nat → Conf Tag V σ H → Conf Tag V σ H
  | [], c => c
  | i :: t, c => runSchedule h e Ls t (stepCaller h e Ls i c)

/-- A schedule in which no caller performs the test of line 13 while another
caller stands between its own test and its store of line 15. -/
def Exclusive (h : Host Tag V σ H) (e : Expansion) (Ls : Nat → Nat) :
    List Nat → Conf Tag V σ H → Prop
  | [], _ => True
  | i :: t, c =>
    (c.pc i = PC.entry → ∀ j, c.pc j ≠ PC.atSet) ∧
      Exclusive h e Ls t (stepCaller h e Ls i c)

/-- The callers that have tested the flag, found it false and not yet
finished the engine call. -/
def PC.initialising : PC → Bool
  | PC.atSet => true
  | PC.atLookup => true
  | _ => false

/-- What holds of every configuration reached by an exclusive schedule:
`n0` is the number of lookups recorded before the callers started. -/
structure ExclInv (e : Expansion) (n0 : Nat) (c : Conf Tag V σ H) : Prop where
  unique : ∀ i j, (c.pc i).initialising = true → (c.pc j).initialising = true → i = j
  count : countLookups c.world.trace = n0 ∨
    (countLookups c.world.trace = n0 + 1 ∧ ∀ j, (c.pc j).initialising = false)
  set_flag : ∀ j, c.pc j = PC.atSet → (c.world.statics e.site).did_init = false
  lookup_flag : ∀ j, c.pc j = PC.atLookup → (c.world.statics e.site).did_init = true
  fresh : (c.world.statics e.site).did_init = false → countLookups c.world.trace = n0

/-! ## An engine that logs the calls it receives -/

/-- The host `h` with an engine that, besides doing what the engine of `h`
does, appends the tag and the name of every call it receives to a log kept
in its own state. -/
def Host.recording (h : Host Tag V σ H) : Host Tag V (σ × List (Tag × String)) H :=
  { VECTOR2 := h.VECTOR2
    nil := h.nil
    variant_get_constant_value := fun tag name out s =>
      ((h.variant_get_constant_value tag name out s.1).1,
        ((h.variant_get_constant_value tag name out s.1).2, s.2 ++ [(tag, name)]))
    push := h.push }

/-- The world `w` seen by the logging engine, whose log so far is `log`. -/
def World.withLog (w : World Tag V σ H) (log : List (Tag × String)) :
    World Tag V (σ × List (Tag × String)) H :=
  { statics := w.statics
    engine := (w.engine, log)
    lua := w.lua
    trace := w.trace }

/-! ## A concrete host used to evaluate the definitions -/

/-- An engine that counts its calls and resolves every constant to
`100 + calls so far`, and a Lua memory that is a single stack of numbers. -/
def demoHost : Host Nat Nat Nat (List Nat) :=
  { VECTOR2 := 5
    nil := 0
    variant_get_constant_value := fun _ _ _ s => (100 + s, s + 1)
    push := fun _ _ v heap => v :: heap }

/-- An engine that resolves nothing: the out-parameter keeps its content. -/
def deafHost : Host Nat Nat Nat (List Nat) :=
  { VECTOR2 := 5
    nil := 0
    variant_get_constant_value := fun _ _ out s => (out, s + 1)
    push := fun _ _ v heap => v :: heap }

/-- The expansion `LUA_BUILTIN_CONST(GDNATIVE_VARIANT_TYPE_VECTOR2, ZERO, Vector2)`. -/
def demoZero : Expansion :=
  { site := 0, variant_type := "GDNATIVE_VARIANT_TYPE_VECTOR2", const_name := "ZERO",
    const_type := "Vector2" }

/-- The expansion `LUA_BUILTIN_CONST(GDNATIVE_VARIANT_TYPE_VECTOR3, ONE, Vector3)`. -/
def demoOne : Expansion :=
  { site := 1, variant_type := "GDNATIVE_VARIANT_TYPE_VECTOR3", const_name := "ONE",
    const_type := "Vector3" }

end LuaGD

namespace LuaGD

variable {Tag V σ H : Type}

/-! ## Trace bookkeeping -/

theorem countLookups_append (a b : List (Event Tag V)) :
    countLookups (a ++ b) = countLookups a + countLookups b := by
  induction a with
  | nil => simp [countLookups]
  | cons x t ih =>
    cases x <;> simp [countLookups, ih]
    omega

theorem countPushes_append (a b : List (Event Tag V)) :
    countPushes (a ++ b) = countPushes a + countPushes b := by
  induction a with
  | nil => simp [countPushes]
  | cons x t ih =>
    cases x <;> simp [countPushes, ih]
    omega

theorem pushedValues_append (a b : List (Event Tag V)) :
    pushedValues (a ++ b) = pushedValues a ++ pushedValues b := by
  induction a with
  | nil => simp [pushedValues]
  | cons x t ih => cases x <;> simp [pushedValues, ih]

theorem lookupsIssued_append (a b : List (Event Tag V)) :
    lookupsIssued (a ++ b) = lookupsIssued a ++ lookupsIssued b := by
  induction a with
  | nil => simp [lookupsIssued]
  | cons x t ih => cases x <;> simp [lookupsIssued, ih]

theorem countLookups_pushes (ty : String) (v : V) (Ls : List Nat) :
    countLookups (Ls.map (fun L => (Event.push ty L v : Event Tag V))) = 0 := by
  induction Ls with
  | nil => rfl
  | cons L t ih => simpa [countLookups] using ih

theorem pushedValues_pushes (ty : String) (v : V) (Ls : List Nat) :
    pushedValues (Ls.map (fun L => (Event.push ty L v : Event Tag V)))
      = List.replicate Ls.length v := by
  induction Ls with
  | nil => rfl
  | cons L t ih => simp [pushedValues, ih, List.replicate_succ]

/-! ## One invocation -/

theorem stmtPush_statics (h : Host Tag V σ H) (e : Expansion) (L : Nat)
    (w : World Tag V σ H) : (stmtPush h e L w).statics = w.statics := rfl

theorem stmtPush_engine (h : Host Tag V σ H) (e : Expansion) (L : Nat)
    (w : World Tag V σ H) : (stmtPush h e L w).engine = w.engine := rfl

theorem stmtPush_trace (h : Host Tag V σ H) (e : Expansion) (L : Nat)
    (w : World Tag V σ H) :
    (stmtPush h e L w).trace
      = w.trace ++ [Event.push e.const_type L (w.statics e.site).const_value] := rfl

theorem stmtPush_lua (h : Host Tag V σ H) (e : Expansion) (L : Nat)
    (w : World Tag V σ H) :
    (stmtPush h e L w).lua = h.push e.const_type L (w.statics e.site).const_value w.lua := rfl

theorem stmtLookup_trace (h : Host Tag V σ H) (e : Expansion) (w : World Tag V σ H) :
    (stmtLookup h e w).trace = w.trace ++ [Event.lookup h.VECTOR2 e.const_name] := rfl

theorem stmtLookup_cache (h : Host Tag V σ H) (e : Expansion) (w : World Tag V σ H) :
    (stmtLookup h e w).statics e.site
      = ⟨(w.statics e.site).did_init,
          (h.variant_get_constant_value h.VECTOR2 e.const_name
            (w.statics e.site).const_value w.engine).1⟩ := by
  simp [stmtLookup]

theorem stmtSetDidInit_trace (e : Expansion) (w : World Tag V σ H) :
    (stmtSetDidInit e w).trace = w.trace := rfl

theorem stmtSetDidInit_engine (e : Expansion) (w : World Tag V σ H) :
    (stmtSetDidInit e w).engine = w.engine := rfl

theorem stmtSetDidInit_cache (e : Expansion) (w : World Tag V σ H) :
    (stmtSetDidInit e w).statics e.site = ⟨true, (w.statics e.site).const_value⟩ := by
  simp [stmtSetDidInit]

theorem accessor_hit (h : Host Tag V σ H) (e : Expansion) (L : Nat) (w : World Tag V σ H)
    (hd : (w.statics e.site).did_init = true) :
    accessor h e L w = (1, stmtPush h e L w) := by
  simp [accessor, initBlock, hd]

theorem accessor_miss (h : Host Tag V σ H) (e : Expansion) (L : Nat) (w : World Tag V σ H)
    (hd : (w.statics e.site).did_init = false) :
    accessor h e L w = (1, stmtPush h e L (stmtLookup h e (stmtSetDidInit e w))) := by
  simp [accessor, initBlock, hd]

theorem accessor_did_init (h : Host Tag V σ H) (e : Expansion) (L : Nat)
    (w : World Tag V σ H) :
    ((accessor h e L w).2.statics e.site).did_init = true := by
  cases hd : (w.statics e.site).did_init
  · simp [accessor_miss h e L w hd, stmtPush, stmtLookup, stmtSetDidInit]
  · simp [accessor_hit h e L w hd, stmtPush, hd]

/-! ## Repeated invocations on a filled cache -/

theorem invokeAll_hit (h : Host Tag V σ H) (e : Expansion) (Ls : List Nat) :
    ∀ w : World Tag V σ H, (w.statics e.site).did_init = true →
      (invokeAll h e Ls w).1 = List.replicate Ls.length 1 ∧
      (invokeAll h e Ls w).2.statics = w.statics ∧
      (invokeAll h e Ls w).2.engine = w.engine ∧
      (invokeAll h e Ls w).2.trace
        = w.trace ++ Ls.map (fun L => Event.push e.const_type L (w.statics e.site).const_value) := by
  induction Ls with
  | nil => intro w _; simp [invokeAll]
  | cons L t ih =>
    intro w hd
    have hd1 : ((stmtPush h e L w).statics e.site).did_init = true := by
      simpa [stmtPush] using hd
    obtain ⟨h1, h2, h3, h4⟩ := ih (stmtPush h e L w) hd1
    simp only [invokeAll, accessor_hit h e L w hd]
    refine ⟨?_, ?_, ?_, ?_⟩
    · simp [h1, List.replicate_succ]
    · rw [h2, stmtPush_statics]
    · rw [h3, stmtPush_engine]
    · rw [h4, stmtPush_statics, stmtPush_trace]
      simp

theorem invokeAll_cons (h : Host Tag V σ H) (e : Expansion) (L : Nat) (Ls : List Nat)
    (w : World Tag V σ H) :
    invokeAll h e (L :: Ls) w
      = ((accessor h e L w).1 :: (invokeAll h e Ls (accessor h e L w).2).1,
          (invokeAll h e Ls (accessor h e L w).2).2) := rfl

theorem invokeAll_single (h : Host Tag V σ H) (e : Expansion) (L : Nat)
    (w : World Tag V σ H) :
    (invokeAll h e [L] w).2 = (accessor h e L w).2 := rfl


/-! ## The first invocation and what follows it -/

theorem accessor_miss_trace (h : Host Tag V σ H) (e : Expansion) (L : Nat)
    (w : World Tag V σ H) (hd : (w.statics e.site).did_init = false) :
    (accessor h e L w).2.trace
      = w.trace ++ [Event.lookup h.VECTOR2 e.const_name,
          Event.push e.const_type L
            (h.variant_get_constant_value h.VECTOR2 e.const_name
              (w.statics e.site).const_value w.engine).1] := by
  rw [accessor_miss h e L w hd]
  simp [stmtPush_trace, stmtLookup_trace, stmtSetDidInit_trace, stmtLookup_cache,
    stmtSetDidInit_cache, stmtSetDidInit_engine]

theorem accessor_miss_cache (h : Host Tag V σ H) (e : Expansion) (L : Nat)
    (w : World Tag V σ H) (hd : (w.statics e.site).did_init = false) :
    (accessor h e L w).2.statics e.site
      = ⟨true, (h.variant_get_constant_value h.VECTOR2 e.const_name
          (w.statics e.site).const_value w.engine).1⟩ := by
  rw [accessor_miss h e L w hd]
  simp [stmtPush_statics, stmtLookup_cache, stmtSetDidInit_cache, stmtSetDidInit_engine]

theorem invokeAll_miss_trace (h : Host Tag V σ H) (e : Expansion) (L : Nat) (Ls : List Nat)
    (w : World Tag V σ H) (hd : (w.statics e.site).did_init = false) :
    (invokeAll h e (L :: Ls) w).2.trace
      = w.trace ++ [Event.lookup h.VECTOR2 e.const_name] ++
          (L :: Ls).map (fun L => Event.push e.const_type L
            (h.variant_get_constant_value h.VECTOR2 e.const_name
              (w.statics e.site).const_value w.engine).1) := by
  rw [invokeAll_cons]
  have hit := invokeAll_hit h e Ls (accessor h e L w).2 (accessor_did_init h e L w)
  rw [hit.2.2.2, accessor_miss_trace h e L w hd, accessor_miss_cache h e L w hd]
  simp

theorem invokeAll_returns (h : Host Tag V σ H) (e : Expansion) (Ls : List Nat) :
    ∀ w : World Tag V σ H, (invokeAll h e Ls w).1 = List.replicate Ls.length 1 := by
  induction Ls with
  | nil => intro w; rfl
  | cons L t ih =>
    intro w
    rw [invokeAll_cons, ih]
    simp [accessor, List.replicate_succ]

theorem take_one_of_pos (Ls : List Nat) (hN : 1 ≤ Ls.length) :
    ∃ L t, Ls = L :: t ∧ Ls.take 1 = [L] := by
  cases Ls with
  | nil => simp at hN
  | cons L t => exact ⟨L, t, rfl, by simp⟩

/-! ## The claims about sequential invocations -/

/-- C4: an invocation that finds `__did_init` already true still runs the
conversion on the Lua state it was given, with the cached value; it makes no
engine call and leaves the engine state alone. -/
theorem push_runs_on_cache_hit (h : Host Tag V σ H) (e : Expansion) (L : Nat)
    (w : World Tag V σ H) (hd : (w.cache e).did_init = true) :
    (accessor h e L w).2.trace
      = w.trace ++ [Event.push e.const_type L (w.cache e).const_value] ∧
    (accessor h e L w).2.lua = h.push e.const_type L (w.cache e).const_value w.lua ∧
    (accessor h e L w).2.engine = w.engine := by
  rw [accessor_hit h e L w hd]
  exact ⟨rfl, rfl, rfl⟩

theorem push_runs_on_cache_hit_witness :
    (((accessor demoHost demoZero 7 (World.init demoHost 0 [])).2.cache demoZero).did_init
      = true) ∧
    (accessor demoHost demoZero 8 (accessor demoHost demoZero 7 (World.init demoHost 0 [])).2).2.trace
      = (accessor demoHost demoZero 7 (World.init demoHost 0 [])).2.trace ++
        [Event.push demoZero.const_type 8
          ((accessor demoHost demoZero 7 (World.init demoHost 0 [])).2.cache demoZero).const_value] ∧
    (accessor demoHost demoZero 8 (accessor demoHost demoZero 7 (World.init demoHost 0 [])).2).2.lua
      = demoHost.push demoZero.const_type 8
        ((accessor demoHost demoZero 7 (World.init demoHost 0 [])).2.cache demoZero).const_value
        (accessor demoHost demoZero 7 (World.init demoHost 0 [])).2.lua ∧
    (accessor demoHost demoZero 8 (accessor demoHost demoZero 7 (World.init demoHost 0 [])).2).2.engine
      = (accessor demoHost demoZero 7 (World.init demoHost 0 [])).2.engine :=
  ⟨rfl, push_runs_on_cache_hit demoHost demoZero 8
    (accessor demoHost demoZero 7 (World.init demoHost 0 [])).2 rfl⟩

/-- C5: once an accessor has been invoked, however many further invocations
follow, `__did_init` is true, the statics are those the first invocation
left, and one more invocation neither changes any static nor makes an engine
call. -/
theorem cache_never_refreshed (h : Host Tag V σ H) (e : Expansion) (w : World Tag V σ H)
    (L : Nat) (Ls : List Nat) (L' : Nat) :
    ((invokeAll h e (L :: Ls) w).2.cache e).did_init = true ∧
    (invokeAll h e (L :: Ls) w).2.statics = (accessor h e L w).2.statics ∧
    (accessor h e L' (invokeAll h e (L :: Ls) w).2).2.statics
      = (invokeAll h e (L :: Ls) w).2.statics ∧
    countLookups (accessor h e L' (invokeAll h e (L :: Ls) w).2).2.trace
      = countLookups (invokeAll h e (L :: Ls) w).2.trace := by
  have hit := invokeAll_hit h e Ls (accessor h e L w).2 (accessor_did_init h e L w)
  have hs : (invokeAll h e (L :: Ls) w).2.statics = (accessor h e L w).2.statics := by
    rw [invokeAll_cons]; exact hit.2.1
  have hd : ((invokeAll h e (L :: Ls) w).2.statics e.site).did_init = true := by
    rw [hs]; exact accessor_did_init h e L w
  refine ⟨hd, hs, ?_, ?_⟩
  · rw [accessor_hit h e L' _ hd, stmtPush_statics]
  · rw [accessor_hit h e L' _ hd, stmtPush_trace, countLookups_append]
    simp [countLookups]


/-! ## Several accessors -/

theorem accessor_frame (h : Host Tag V σ H) (e e' : Expansion) (L : Nat)
    (w : World Tag V σ H) (hne : e'.site ≠ e.site) :
    (accessor h e' L w).2.statics e.site = w.statics e.site := by
  cases hd : (w.statics e'.site).did_init
  · rw [accessor_miss h e' L w hd]
    simp [stmtPush, stmtLookup, stmtSetDidInit, Function.update_noteq (Ne.symm hne)]
  · rw [accessor_hit h e' L w hd]
    rfl

theorem invokeSeq_frame (h : Host Tag V σ H) (e : Expansion) (calls : List (Expansion × Nat)) :
    ∀ w : World Tag V σ H, (∀ c ∈ calls, c.1.site ≠ e.site) →
      (invokeSeq h calls w).2.statics e.site = w.statics e.site := by
  induction calls with
  | nil => intro w _; rfl
  | cons c cs ih =>
    intro w hall
    have h1 : c.1.site ≠ e.site := hall c (List.mem_cons_self _ _)
    have h2 : ∀ c' ∈ cs, c'.1.site ≠ e.site := fun c' hc' => hall c' (List.mem_cons_of_mem _ hc')
    show (invokeSeq h cs (accessor h c.1 c.2 w).2).2.statics e.site = _
    rw [ih _ h2, accessor_frame h e c.1 c.2 w h1]

theorem accessor_lookupsIssued (h : Host Tag V σ H) (e : Expansion) (L : Nat)
    (w : World Tag V σ H) :
    lookupsIssued (accessor h e L w).2.trace
      = lookupsIssued w.trace ++
          (if (w.statics e.site).did_init then [] else [(h.VECTOR2, e.const_name)]) := by
  cases hd : (w.statics e.site).did_init
  · rw [accessor_miss_trace h e L w hd, lookupsIssued_append]
    simp [lookupsIssued]
  · rw [accessor_hit h e L w hd, stmtPush_trace, lookupsIssued_append]
    simp [lookupsIssued]

/-- C6: invocations of other accessors (other expansion sites), in any number
and order, leave the statics of accessor `e` exactly as they were; so the next
invocation of `e` issues its own lookup precisely when `e` itself had not
been initialised before those invocations. -/
theorem cache_scoped_to_accessor (h : Host Tag V σ H) (e : Expansion)
    (calls : List (Expansion × Nat)) (w : World Tag V σ H) (L : Nat)
    (hother : ∀ c ∈ calls, c.1.site ≠ e.site) :
    (invokeSeq h calls w).2.cache e = w.cache e ∧
    lookupsIssued (accessor h e L (invokeSeq h calls w).2).2.trace
      = lookupsIssued (invokeSeq h calls w).2.trace ++
          (if (w.cache e).did_init then [] else [(h.VECTOR2, e.const_name)]) := by
  have hf := invokeSeq_frame h e calls w hother
  refine ⟨hf, ?_⟩
  rw [accessor_lookupsIssued, hf]
  rfl

theorem cache_scoped_to_accessor_witness :
    (∀ c ∈ [(demoOne, 1), (demoOne, 2)], c.1.site ≠ demoZero.site) ∧
    (invokeSeq demoHost [(demoOne, 1), (demoOne, 2)] (World.init demoHost 0 [])).2.cache demoZero
      = (World.init demoHost 0 []).cache demoZero ∧
    lookupsIssued (accessor demoHost demoZero 3
        (invokeSeq demoHost [(demoOne, 1), (demoOne, 2)] (World.init demoHost 0 [])).2).2.trace
      = lookupsIssued
          (invokeSeq demoHost [(demoOne, 1), (demoOne, 2)] (World.init demoHost 0 [])).2.trace ++
          (if ((World.init demoHost 0 []).cache demoZero).did_init then []
            else [(demoHost.VECTOR2, demoZero.const_name)]) :=
  ⟨by decide,
    cache_scoped_to_accessor demoHost demoZero [(demoOne, 1), (demoOne, 2)]
      (World.init demoHost 0 []) 3 (by decide)⟩

/-! ## Interleaved callers -/

/-- A caller that runs alone from entry to return does what `accessor` does. -/
theorem runSchedule_alone (h : Host Tag V σ H) (e : Expansion) (Ls : Nat → Nat) (i : Nat)
    (c : Conf Tag V σ H) (hpc : c.pc i = PC.entry) :
    (runSchedule h e Ls [i, i, i, i] c).world = (accessor h e (Ls i) c.world).2 ∧
    (runSchedule h e Ls [i, i, i, i] c).ret i = some (accessor h e (Ls i) c.world).1 ∧
    (runSchedule h e Ls [i, i, i, i] c).pc i = PC.returned := by
  cases hd : (c.world.statics e.site).did_init
  · simp [runSchedule, stepCaller, hpc, hd, accessor, initBlock]
  · simp [runSchedule, stepCaller, hpc, hd, accessor, initBlock]

theorem exclInv_start (e : Expansion) (w : World Tag V σ H) :
    ExclInv e (countLookups w.trace) (Conf.start w) where
  unique := by intro i j hi; exact absurd hi (by simp [Conf.start, PC.initialising])
  count := Or.inl rfl
  set_flag := by intro j hj; simp [Conf.start] at hj
  lookup_flag := by intro j hj; simp [Conf.start] at hj
  fresh := fun _ => rfl


theorem not_initialising_of_fresh (e : Expansion) (n0 : Nat) (c : Conf Tag V σ H)
    (inv : ExclInv e n0 c) (hd : (c.world.statics e.site).did_init = false)
    (hex : ∀ j, c.pc j ≠ PC.atSet) : ∀ j, (c.pc j).initialising = false := by
  intro j
  cases hj : c.pc j with
  | atSet => exact absurd hj (hex j)
  | atLookup => have := inv.lookup_flag j hj; simp [hd] at this
  | entry => rfl
  | atPush => rfl
  | returned => rfl

theorem exclInv_step (h : Host Tag V σ H) (e : Expansion) (Ls : Nat → Nat) (i : Nat)
    (n0 : Nat) (c : Conf Tag V σ H) (inv : ExclInv e n0 c)
    (hex : c.pc i = PC.entry → ∀ j, c.pc j ≠ PC.atSet) :
    ExclInv e n0 (stepCaller h e Ls i c) := by
  cases hpc : c.pc i with
  | entry =>
    cases hd : (c.world.statics e.site).did_init with
    | false =>
      have hnone := not_initialising_of_fresh e n0 c inv hd (hex hpc)
      have hpcs : ∀ j, (stepCaller h e Ls i c).pc j = if j = i then PC.atSet else c.pc j := by
        intro j; simp [stepCaller, hpc, hd, Function.update_apply]
      have hw : (stepCaller h e Ls i c).world = c.world := by simp [stepCaller, hpc]
      refine ⟨?_, ?_, ?_, ?_, ?_⟩
      · intro a b ha hb
        rw [hpcs] at ha hb
        by_cases hai : a = i <;> by_cases hbi : b = i
        · rw [hai, hbi]
        · simp [hbi, hnone b] at hb
        · simp [hai, hnone a] at ha
        · simp [hai, hnone a] at ha
      · rw [hw]; exact Or.inl (inv.fresh hd)
      · intro j _; rw [hw]; exact hd
      · intro j hj
        rw [hpcs] at hj
        by_cases hji : j = i
        · simp [hji] at hj
        · simp only [hji, if_false] at hj
          have := hnone j
          simp [hj, PC.initialising] at this
      · intro _; rw [hw]; exact inv.fresh hd
    | true =>
      have hpcs : ∀ j, (stepCaller h e Ls i c).pc j = if j = i then PC.atPush else c.pc j := by
        intro j; simp [stepCaller, hpc, hd, Function.update_apply]
      have hw : (stepCaller h e Ls i c).world = c.world := by simp [stepCaller, hpc]
      have hkeep : ∀ j, ((stepCaller h e Ls i c).pc j).initialising = (c.pc j).initialising := by
        intro j
        rw [hpcs]
        by_cases hji : j = i
        · simp [hji, hpc, PC.initialising]
        · simp [hji]
      refine ⟨?_, ?_, ?_, ?_, ?_⟩
      · intro a b ha hb
        rw [hkeep] at ha hb
        exact inv.unique a b ha hb
      · rw [hw]
        rcases inv.count with hc | ⟨hc, hn⟩
        · exact Or.inl hc
        · exact Or.inr ⟨hc, fun j => by rw [hkeep]; exact hn j⟩
      · intro j hj
        rw [hpcs] at hj
        by_cases hji : j = i
        · simp [hji] at hj
        · simp only [hji, if_false] at hj
          rw [hw]; exact inv.set_flag j hj
      · intro j _; rw [hw]; exact hd
      · rw [hw]; exact inv.fresh
  | atSet =>
    have hd := inv.set_flag i hpc
    have hpcs : ∀ j, (stepCaller h e Ls i c).pc j = if j = i then PC.atLookup else c.pc j := by
      intro j; simp [stepCaller, hpc, Function.update_apply]
    have hw : (stepCaller h e Ls i c).world = stmtSetDidInit e c.world := by
      simp [stepCaller, hpc]
    have hi : (c.pc i).initialising = true := by simp [hpc, PC.initialising]
    have hkeep : ∀ j, ((stepCaller h e Ls i c).pc j).initialising = (c.pc j).initialising := by
      intro j
      rw [hpcs]
      by_cases hji : j = i
      · simp [hji, hpc, PC.initialising]
      · simp [hji]
    refine ⟨?_, ?_, ?_, ?_, ?_⟩
    · intro a b ha hb
      rw [hkeep] at ha hb
      exact inv.unique a b ha hb
    · rw [hw, stmtSetDidInit_trace]; exact Or.inl (inv.fresh hd)
    · intro j hj
      rw [hpcs] at hj
      by_cases hji : j = i
      · simp [hji] at hj
      · simp only [hji, if_false] at hj
        exact absurd (inv.unique j i (by simp [hj, PC.initialising]) hi) hji
    · intro j _; rw [hw, stmtSetDidInit_cache]
    · intro hf; rw [hw, stmtSetDidInit_cache] at hf; simp at hf
  | atLookup =>
    have hd := inv.lookup_flag i hpc
    have hpcs : ∀ j, (stepCaller h e Ls i c).pc j = if j = i then PC.atPush else c.pc j := by
      intro j; simp [stepCaller, hpc, Function.update_apply]
    have hw : (stepCaller h e Ls i c).world = stmtLookup h e c.world := by
      simp [stepCaller, hpc]
    have hi : (c.pc i).initialising = true := by simp [hpc, PC.initialising]
    have hnone : ∀ j, ((stepCaller h e Ls i c).pc j).initialising = false := by
      intro j
      rw [hpcs]
      by_cases hji : j = i
      · simp [hji, PC.initialising]
      · simp only [hji, if_false]
        cases hj : (c.pc j).initialising with
        | false => rfl
        | true => exact absurd (inv.unique j i hj hi) hji
    have hflag : ((stmtLookup h e c.world).statics e.site).did_init = true := by
      rw [stmtLookup_cache]; exact hd
    refine ⟨?_, ?_, ?_, ?_, ?_⟩
    · intro a b ha _
      rw [hnone a] at ha
      exact absurd ha (by simp)
    · rcases inv.count with hc | ⟨_, hn⟩
      · refine Or.inr ⟨?_, hnone⟩
        rw [hw, stmtLookup_trace, countLookups_append, hc]
        simp [countLookups]
      · have := hn i
        rw [hi] at this
        exact absurd this (by simp)
    · intro j hj
      have := hnone j
      simp [hj, PC.initialising] at this
    · intro j _; rw [hw]; exact hflag
    · intro hf; rw [hw, hflag] at hf; simp at hf
  | atPush =>
    have hpcs : ∀ j, (stepCaller h e Ls i c).pc j = if j = i then PC.returned else c.pc j := by
      intro j; simp [stepCaller, hpc, Function.update_apply]
    have hw : (stepCaller h e Ls i c).world = stmtPush h e (Ls i) c.world := by
      simp [stepCaller, hpc]
    have hn : countLookups (stmtPush h e (Ls i) c.world).trace = countLookups c.world.trace := by
      rw [stmtPush_trace, countLookups_append]
      simp [countLookups]
    have hkeep : ∀ j, ((stepCaller h e Ls i c).pc j).initialising = (c.pc j).initialising := by
      intro j
      rw [hpcs]
      by_cases hji : j = i
      · simp [hji, hpc, PC.initialising]
      · simp [hji]
    refine ⟨?_, ?_, ?_, ?_, ?_⟩
    · intro a b ha hb
      rw [hkeep] at ha hb
      exact inv.unique a b ha hb
    · rw [hw, hn]
      rcases inv.count with hc | ⟨hc, hnn⟩
      · exact Or.inl hc
      · exact Or.inr ⟨hc, fun j => by rw [hkeep]; exact hnn j⟩
    · intro j hj
      rw [hpcs] at hj
      by_cases hji : j = i
      · simp [hji] at hj
      · simp only [hji, if_false] at hj
        rw [hw, stmtPush_statics]; exact inv.set_flag j hj
    · intro j hj
      rw [hpcs] at hj
      by_cases hji : j = i
      · simp [hji] at hj
      · simp only [hji, if_false] at hj
        rw [hw, stmtPush_statics]; exact inv.lookup_flag j hj
    · rw [hw, hn, stmtPush_statics]; exact inv.fresh
  | returned =>
    have : stepCaller h e Ls i c = c := by simp [stepCaller, hpc]
    rw [this]; exact inv

theorem exclInv_run (h : Host Tag V σ H) (e : Expansion) (Ls : Nat → Nat) (n0 : Nat)
    (sched : List Nat) :
    ∀ c : Conf Tag V σ H, ExclInv e n0 c → Exclusive h e Ls sched c →
      ExclInv e n0 (runSchedule h e Ls sched c) := by
  induction sched with
  | nil => intro c inv _; exact inv
  | cons i t ih =>
    intro c inv hex
    exact ih _ (exclInv_step h e Ls i n0 c inv hex.1) hex.2


/-- C7 as stated fails: two callers that both test `__did_init` before either
stores `true` make two engine lookups. -/
theorem concurrent_callers_fetch_twice :
    countLookups (runSchedule demoHost demoZero id [0, 1, 0, 0, 1, 1, 0, 1]
      (Conf.start (World.init demoHost 0 []))).world.trace = 2 := by
  decide

/-- C7 amended: under any interleaving of any number of callers of one
accessor in which no caller tests `__did_init` while another caller stands
between its own test and its store of `true`, at most one engine lookup is
added to the trace. -/
theorem fetch_at_most_once_when_exclusive (h : Host Tag V σ H) (e : Expansion)
    (Ls : Nat → Nat) (sched : List Nat) (w : World Tag V σ H)
    (hex : Exclusive h e Ls sched (Conf.start w)) :
    countLookups (runSchedule h e Ls sched (Conf.start w)).world.trace
      ≤ countLookups w.trace + 1 := by
  have inv := exclInv_run h e Ls (countLookups w.trace) sched (Conf.start w)
    (exclInv_start e w) hex
  rcases inv.count with hc | ⟨hc, _⟩
  · omega
  · omega

theorem fetch_at_most_once_when_exclusive_witness :
    Exclusive demoHost demoZero id [0, 0, 1, 0, 1, 0] (Conf.start (World.init demoHost 0 [])) ∧
    countLookups (runSchedule demoHost demoZero id [0, 0, 1, 0, 1, 0]
      (Conf.start (World.init demoHost 0 []))).world.trace
      ≤ countLookups (World.init demoHost 0 []).trace + 1 :=
  have hex : Exclusive demoHost demoZero id [0, 0, 1, 0, 1, 0]
      (Conf.start (World.init demoHost 0 [])) := by
    simp [Exclusive, stepCaller, Conf.start, World.init, stmtSetDidInit, stmtLookup,
      stmtPush, demoZero, Function.update_apply]
    intro j
    split <;> simp
  ⟨hex, fetch_at_most_once_when_exclusive demoHost demoZero id [0, 0, 1, 0, 1, 0]
    (World.init demoHost 0 []) hex⟩


/-! ## The real effects of invocations: engine state and Lua memory -/

theorem accessor_value (h : Host Tag V σ H) (e : Expansion) (L : Nat) (w : World Tag V σ H) :
    ((accessor h e L w).2.statics e.site).const_value
      = if (w.statics e.site).did_init then (w.statics e.site).const_value
        else (h.variant_get_constant_value h.VECTOR2 e.const_name
          (w.statics e.site).const_value w.engine).1 := by
  cases hd : (w.statics e.site).did_init
  · rw [accessor_miss_cache h e L w hd]
    simp
  · rw [accessor_hit h e L w hd, stmtPush_statics]
    simp

theorem accessor_engine (h : Host Tag V σ H) (e : Expansion) (L : Nat) (w : World Tag V σ H) :
    (accessor h e L w).2.engine
      = if (w.statics e.site).did_init then w.engine
        else (h.variant_get_constant_value h.VECTOR2 e.const_name
          (w.statics e.site).const_value w.engine).2 := by
  cases hd : (w.statics e.site).did_init
  · rw [accessor_miss h e L w hd]
    simp [stmtPush_engine, stmtLookup, stmtSetDidInit]
  · rw [accessor_hit h e L w hd, stmtPush_engine]
    simp

theorem accessor_lua (h : Host Tag V σ H) (e : Expansion) (L : Nat) (w : World Tag V σ H) :
    (accessor h e L w).2.lua
      = h.push e.const_type L ((accessor h e L w).2.statics e.site).const_value w.lua := by
  cases hd : (w.statics e.site).did_init
  · rw [accessor_miss h e L w hd]
    rfl
  · rw [accessor_hit h e L w hd]
    rfl

theorem invokeAll_hit_lua (h : Host Tag V σ H) (e : Expansion) (Ls : List Nat) :
    ∀ w : World Tag V σ H, (w.statics e.site).did_init = true →
      (invokeAll h e Ls w).2.lua
        = Ls.foldl (fun heap L => h.push e.const_type L (w.statics e.site).const_value heap)
            w.lua := by
  induction Ls with
  | nil => intro w _; rfl
  | cons L t ih =>
    intro w hd
    have hd1 : ((stmtPush h e L w).statics e.site).did_init = true := by
      rw [stmtPush_statics]; exact hd
    rw [invokeAll_cons, accessor_hit h e L w hd]
    show (invokeAll h e t (stmtPush h e L w)).2.lua = _
    rw [ih (stmtPush h e L w) hd1, stmtPush_statics, stmtPush_lua]
    rfl

theorem invokeAll_miss_cache (h : Host Tag V σ H) (e : Expansion) (L : Nat) (Ls : List Nat)
    (w : World Tag V σ H) (hd : (w.statics e.site).did_init = false) :
    (invokeAll h e (L :: Ls) w).2.statics e.site
      = ⟨true, (h.variant_get_constant_value h.VECTOR2 e.const_name
          (w.statics e.site).const_value w.engine).1⟩ := by
  have hit := invokeAll_hit h e Ls (accessor h e L w).2 (accessor_did_init h e L w)
  rw [invokeAll_cons]
  show (invokeAll h e Ls (accessor h e L w).2).2.statics e.site = _
  rw [hit.2.1, accessor_miss_cache h e L w hd]

theorem invokeAll_miss_engine (h : Host Tag V σ H) (e : Expansion) (L : Nat) (Ls : List Nat)
    (w : World Tag V σ H) (hd : (w.statics e.site).did_init = false) :
    (invokeAll h e (L :: Ls) w).2.engine
      = (h.variant_get_constant_value h.VECTOR2 e.const_name
          (w.statics e.site).const_value w.engine).2 := by
  have hit := invokeAll_hit h e Ls (accessor h e L w).2 (accessor_did_init h e L w)
  rw [invokeAll_cons]
  show (invokeAll h e Ls (accessor h e L w).2).2.engine = _
  rw [hit.2.2.1, accessor_engine, hd]
  simp

theorem invokeAll_miss_lua (h : Host Tag V σ H) (e : Expansion) (L : Nat) (Ls : List Nat)
    (w : World Tag V σ H) (hd : (w.statics e.site).did_init = false) :
    (invokeAll h e (L :: Ls) w).2.lua
      = (L :: Ls).foldl (fun heap L => h.push e.const_type L
          (h.variant_get_constant_value h.VECTOR2 e.const_name
            (w.statics e.site).const_value w.engine).1 heap) w.lua := by
  rw [invokeAll_cons]
  show (invokeAll h e Ls (accessor h e L w).2).2.lua = _
  rw [invokeAll_hit_lua h e Ls (accessor h e L w).2 (accessor_did_init h e L w),
    accessor_lua, accessor_miss_cache h e L w hd]
  rfl

/-! ## The flag is stored before the engine is called -/

theorem flag_before_lookup_step (h : Host Tag V σ H) (e : Expansion) (Ls : Nat → Nat)
    (i : Nat) (c : Conf Tag V σ H)
    (inv : ∀ j, c.pc j = PC.atLookup → (c.world.statics e.site).did_init = true) :
    ∀ j, (stepCaller h e Ls i c).pc j = PC.atLookup →
      ((stepCaller h e Ls i c).world.statics e.site).did_init = true := by
  intro j hj
  cases hpc : c.pc i with
  | entry =>
    have hw : (stepCaller h e Ls i c).world = c.world := by simp [stepCaller, hpc]
    rw [hw]
    by_cases hji : j = i
    · subst hji
      cases hd : (c.world.statics e.site).did_init
      · simp [stepCaller, hpc, hd] at hj
      · rfl
    · have : (stepCaller h e Ls i c).pc j = c.pc j := by
        simp [stepCaller, hpc, Function.update_apply, hji]
      rw [this] at hj
      exact inv j hj
  | atSet =>
    have hw : (stepCaller h e Ls i c).world = stmtSetDidInit e c.world := by
      simp [stepCaller, hpc]
    rw [hw, stmtSetDidInit_cache]
  | atLookup =>
    have hw : (stepCaller h e Ls i c).world = stmtLookup h e c.world := by
      simp [stepCaller, hpc]
    rw [hw, stmtLookup_cache]
    exact inv i hpc
  | atPush =>
    have hw : (stepCaller h e Ls i c).world = stmtPush h e (Ls i) c.world := by
      simp [stepCaller, hpc]
    rw [hw, stmtPush_statics]
    by_cases hji : j = i
    · subst hji
      simp [stepCaller, hpc] at hj
    · have : (stepCaller h e Ls i c).pc j = c.pc j := by
        simp [stepCaller, hpc, Function.update_apply, hji]
      rw [this] at hj
      exact inv j hj
  | returned =>
    have : stepCaller h e Ls i c = c := by simp [stepCaller, hpc]
    rw [this] at hj ⊢
    exact inv j hj

theorem flag_before_lookup_run (h : Host Tag V σ H) (e : Expansion) (Ls : Nat → Nat)
    (sched : List Nat) :
    ∀ c : Conf Tag V σ H,
      (∀ j, c.pc j = PC.atLookup → (c.world.statics e.site).did_init = true) →
      ∀ j, (runSchedule h e Ls sched c).pc j = PC.atLookup →
        ((runSchedule h e Ls sched c).world.statics e.site).did_init = true := by
  induction sched with
  | nil => intro c inv; exact inv
  | cons i t ih =>
    intro c inv
    exact ih _ (flag_before_lookup_step h e Ls i c inv)


/-! ## The claims stated on the engine state and the Lua memory -/

/-- C1: starting from a state in which `__did_init` is false, any N ≥ 1
sequential invocations of one accessor call the engine exactly once, during
the first invocation: the engine state after the first invocation, and still
after all N, is the state one call of `variant_get_constant_value` leaves;
an engine that logs the calls it receives has received exactly one after the
first invocation and after all N; the trace records one lookup. -/
theorem lookup_exactly_once (h : Host Tag V σ H) (e : Expansion) (w : World Tag V σ H)
    (Ls : List Nat) (log : List (Tag × String))
    (hinit : (w.cache e).did_init = false) (hN : 1 ≤ Ls.length) :
    (invokeAll h e (Ls.take 1) w).2.engine
      = (h.variant_get_constant_value h.VECTOR2 e.const_name
          (w.cache e).const_value w.engine).2 ∧
    (invokeAll h e Ls w).2.engine
      = (h.variant_get_constant_value h.VECTOR2 e.const_name
          (w.cache e).const_value w.engine).2 ∧
    (invokeAll h.recording e (Ls.take 1) (w.withLog log)).2.engine.2
      = log ++ [(h.VECTOR2, e.const_name)] ∧
    (invokeAll h.recording e Ls (w.withLog log)).2.engine.2
      = log ++ [(h.VECTOR2, e.const_name)] ∧
    countLookups (invokeAll h e (Ls.take 1) w).2.trace = countLookups w.trace + 1 ∧
    countLookups (invokeAll h e Ls w).2.trace = countLookups w.trace + 1 := by
  obtain ⟨L, t, rfl, hL⟩ := take_one_of_pos Ls hN
  have hinit' : (w.statics e.site).did_init = false := hinit
  have hlog : (((w.withLog log).statics e.site).did_init = false) := hinit
  rw [hL]
  refine ⟨?_, ?_, ?_, ?_, ?_, ?_⟩
  · exact invokeAll_miss_engine h e L [] w hinit'
  · exact invokeAll_miss_engine h e L t w hinit'
  · rw [invokeAll_miss_engine h.recording e L [] (w.withLog log) hlog]
    rfl
  · rw [invokeAll_miss_engine h.recording e L t (w.withLog log) hlog]
    rfl
  · rw [invokeAll_miss_trace h e L [] w hinit]
    simp [countLookups_append, countLookups]
  · rw [invokeAll_miss_trace h e L t w hinit, countLookups_append, countLookups_append,
      countLookups_pushes]
    simp [countLookups]

theorem lookup_exactly_once_witness :
    ((World.init demoHost 0 []).cache demoZero).did_init = false ∧ 1 ≤ [7, 8, 9].length ∧
    (invokeAll demoHost demoZero ([7, 8, 9].take 1) (World.init demoHost 0 [])).2.engine = 1 ∧
    (invokeAll demoHost demoZero [7, 8, 9] (World.init demoHost 0 [])).2.engine = 1 ∧
    (invokeAll demoHost.recording demoZero ([7, 8, 9].take 1)
        ((World.init demoHost 0 []).withLog [])).2.engine.2 = [(5, "ZERO")] ∧
    (invokeAll demoHost.recording demoZero [7, 8, 9]
        ((World.init demoHost 0 []).withLog [])).2.engine.2 = [(5, "ZERO")] ∧
    countLookups (invokeAll demoHost demoZero ([7, 8, 9].take 1)
      (World.init demoHost 0 [])).2.trace = 1 ∧
    countLookups (invokeAll demoHost demoZero [7, 8, 9]
      (World.init demoHost 0 [])).2.trace = 1 :=
  ⟨rfl, by decide,
    lookup_exactly_once demoHost demoZero (World.init demoHost 0 []) [7, 8, 9] [] rfl
      (by decide)⟩

/-- C2: starting from a state in which `__did_init` is false, every one of
N ≥ 1 sequential invocations hands to `push` the same value, the content of
`__const_value` after the first invocation, which is what the engine call of
that invocation wrote: the Lua memory after the N invocations is the result
of applying `push` with that value once per invocation, first one included,
each on the Lua state of that invocation; the trace records N pushes of that
value. -/
theorem pushed_value_is_fetched_value (h : Host Tag V σ H) (e : Expansion)
    (w : World Tag V σ H) (Ls : List Nat) (hinit : (w.cache e).did_init = false)
    (hN : 1 ≤ Ls.length) :
    ((invokeAll h e (Ls.take 1) w).2.cache e).const_value
      = (h.variant_get_constant_value h.VECTOR2 e.const_name
          (w.cache e).const_value w.engine).1 ∧
    ((invokeAll h e Ls w).2.cache e).const_value
      = ((invokeAll h e (Ls.take 1) w).2.cache e).const_value ∧
    (invokeAll h e Ls w).2.lua
      = Ls.foldl (fun heap L => h.push e.const_type L
          ((invokeAll h e (Ls.take 1) w).2.cache e).const_value heap) w.lua ∧
    pushedValues (invokeAll h e Ls w).2.trace
      = pushedValues w.trace ++
          List.replicate Ls.length ((invokeAll h e (Ls.take 1) w).2.cache e).const_value := by
  obtain ⟨L, t, rfl, hL⟩ := take_one_of_pos Ls hN
  have hinit' : (w.statics e.site).did_init = false := hinit
  have hc : ((invokeAll h e [L] w).2.cache e).const_value
      = (h.variant_get_constant_value h.VECTOR2 e.const_name
          (w.cache e).const_value w.engine).1 := by
    show ((invokeAll h e [L] w).2.statics e.site).const_value = _
    rw [invokeAll_miss_cache h e L [] w hinit']
    rfl
  rw [hL]
  refine ⟨hc, ?_, ?_, ?_⟩
  · rw [hc]
    show ((invokeAll h e (L :: t) w).2.statics e.site).const_value = _
    rw [invokeAll_miss_cache h e L t w hinit']
    rfl
  · rw [hc, invokeAll_miss_lua h e L t w hinit']
    rfl
  · rw [hc, invokeAll_miss_trace h e L t w hinit, pushedValues_append, pushedValues_append,
      pushedValues_pushes]
    simp [pushedValues, World.cache]

theorem pushed_value_is_fetched_value_witness :
    ((World.init demoHost 0 []).cache demoZero).did_init = false ∧ 1 ≤ [7, 8, 9].length ∧
    ((invokeAll demoHost demoZero ([7, 8, 9].take 1)
      (World.init demoHost 0 [])).2.cache demoZero).const_value = 100 ∧
    ((invokeAll demoHost demoZero [7, 8, 9] (World.init demoHost 0 [])).2.cache
        demoZero).const_value = 100 ∧
    (invokeAll demoHost demoZero [7, 8, 9] (World.init demoHost 0 [])).2.lua = [100, 100, 100] ∧
    pushedValues (invokeAll demoHost demoZero [7, 8, 9] (World.init demoHost 0 [])).2.trace
      = [100, 100, 100] :=
  ⟨rfl, by decide,
    pushed_value_is_fetched_value demoHost demoZero (World.init demoHost 0 []) [7, 8, 9] rfl
      (by decide)⟩

/-- C3: every invocation, whatever the cache state and the Lua state
pointer, returns the result count 1 and calls `push` exactly once: the Lua
memory it leaves is the one it found with `push` applied once, for the
accessor's `const_type`, on the given Lua state, to the content of
`__const_value` (the cached value on a hit, the value just fetched on a
miss); the trace gains exactly one push, as its last entry. -/
theorem push_once_and_return_one (h : Host Tag V σ H) (e : Expansion) (L : Nat)
    (w : World Tag V σ H) :
    (accessor h e L w).1 = 1 ∧
    (accessor h e L w).2.lua
      = h.push e.const_type L
          (if (w.cache e).did_init then (w.cache e).const_value
            else (h.variant_get_constant_value h.VECTOR2 e.const_name
              (w.cache e).const_value w.engine).1) w.lua ∧
    ((accessor h e L w).2.cache e).const_value
      = (if (w.cache e).did_init then (w.cache e).const_value
          else (h.variant_get_constant_value h.VECTOR2 e.const_name
            (w.cache e).const_value w.engine).1) ∧
    countPushes (accessor h e L w).2.trace = countPushes w.trace + 1 ∧
    (accessor h e L w).2.trace.getLast?
      = some (Event.push e.const_type L ((accessor h e L w).2.cache e).const_value) := by
  refine ⟨rfl, ?_, ?_, ?_, ?_⟩
  · rw [accessor_lua, accessor_value]
    rfl
  · exact accessor_value h e L w
  · cases hd : (w.statics e.site).did_init
    · rw [accessor_miss_trace h e L w hd, countPushes_append]
      simp [countPushes]
    · rw [accessor_hit h e L w hd, stmtPush_trace, countPushes_append]
      simp [countPushes]
  · simp [accessor, stmtPush, World.cache]

/-- C8: replacing the `variant_type` argument of an expansion by any other
text changes nothing in what the accessor does, whatever the engine; the
engine call an invocation makes on an empty cache is the one with tag
`GDNATIVE_VARIANT_TYPE_VECTOR2` and the text of `const_name`: the engine
state and `__const_value` it leaves are those of that call, an engine that
logs the calls it receives has logged that tag and that name, also for the
expansion with the other `variant_type`, and the trace records them. -/
theorem variant_type_ignored (h : Host Tag V σ H) (e : Expansion) (t : String) (L : Nat)
    (w : World Tag V σ H) (log : List (Tag × String)) :
    accessor h { e with variant_type := t } L w = accessor h e L w ∧
    (accessor h e L w).2.engine
      = (if (w.cache e).did_init then w.engine
          else (h.variant_get_constant_value h.VECTOR2 e.const_name
            (w.cache e).const_value w.engine).2) ∧
    ((accessor h e L w).2.cache e).const_value
      = (if (w.cache e).did_init then (w.cache e).const_value
          else (h.variant_get_constant_value h.VECTOR2 e.const_name
            (w.cache e).const_value w.engine).1) ∧
    (accessor h.recording e L (w.withLog log)).2.engine.2
      = log ++ (if (w.cache e).did_init then [] else [(h.VECTOR2, e.const_name)]) ∧
    (accessor h.recording { e with variant_type := t } L (w.withLog log)).2.engine.2
      = log ++ (if (w.cache e).did_init then [] else [(h.VECTOR2, e.const_name)]) ∧
    lookupsIssued (accessor h e L w).2.trace
      = lookupsIssued w.trace ++
          (if (w.cache e).did_init then [] else [(h.VECTOR2, e.const_name)]) := by
  have hlog : (accessor h.recording e L (w.withLog log)).2.engine.2
      = log ++ (if (w.cache e).did_init then [] else [(h.VECTOR2, e.const_name)]) := by
    rw [accessor_engine]
    show (if (w.statics e.site).did_init then (w.engine, log) else _).2 = _
    cases hd : (w.statics e.site).did_init
    · simp [World.cache, hd, Host.recording, World.withLog]
    · simp [World.cache, hd]
  exact ⟨rfl, accessor_engine h e L w, accessor_value h e L w, hlog, hlog,
    accessor_lookupsIssued h e L w⟩


/-- C9: a failed lookup is never retried.  The store `__did_init = true`
comes before the engine call: a caller that has executed its first two steps
stands before the call of line 16 with the flag already true and the engine
not yet called, and under every schedule a caller standing before that call
sees the flag true.  When the engine call leaves the out-parameter at the
default `Variant` (constant not resolved), then after N ≥ 1 invocations the
cache holds `(true, nil)`, every invocation has returned 1, the Lua memory is
the result of applying `push` with the default value once per invocation, the
engine state is the one left by the single call of the first invocation, and
the trace records N pushes of the default value and one lookup. -/
theorem failed_lookup_not_retried (h : Host Tag V σ H) (e : Expansion)
    (w : World Tag V σ H) (L : Nat) (Ls : List Nat)
    (Lof : Nat → Nat) (sched : List Nat) (i : Nat)
    (hinit : (w.cache e).did_init = false) (hnil : (w.cache e).const_value = h.nil)
    (hfail : (h.variant_get_constant_value h.VECTOR2 e.const_name h.nil w.engine).1 = h.nil) :
    ((runSchedule h e Lof [i, i] (Conf.start w)).pc i = PC.atLookup ∧
      ((runSchedule h e Lof [i, i] (Conf.start w)).world.cache e).did_init = true ∧
      (runSchedule h e Lof [i, i] (Conf.start w)).world.engine = w.engine) ∧
    ((runSchedule h e Lof sched (Conf.start w)).pc i = PC.atLookup →
      ((runSchedule h e Lof sched (Conf.start w)).world.cache e).did_init = true) ∧
    ((invokeAll h e (L :: Ls) w).2.cache e).did_init = true ∧
    ((invokeAll h e (L :: Ls) w).2.cache e).const_value = h.nil ∧
    (invokeAll h e (L :: Ls) w).1 = List.replicate (Ls.length + 1) 1 ∧
    (invokeAll h e (L :: Ls) w).2.lua
      = (L :: Ls).foldl (fun heap L => h.push e.const_type L h.nil heap) w.lua ∧
    (invokeAll h e (L :: Ls) w).2.engine
      = (h.variant_get_constant_value h.VECTOR2 e.const_name h.nil w.engine).2 ∧
    pushedValues (invokeAll h e (L :: Ls) w).2.trace
      = pushedValues w.trace ++ List.replicate (Ls.length + 1) h.nil ∧
    countLookups (invokeAll h e (L :: Ls) w).2.trace = countLookups w.trace + 1 := by
  have hinit' : (w.statics e.site).did_init = false := hinit
  have hnil' : (w.statics e.site).const_value = h.nil := hnil
  have hs : (invokeAll h e (L :: Ls) w).2.statics e.site = ⟨true, h.nil⟩ := by
    rw [invokeAll_miss_cache h e L Ls w hinit', hnil', hfail]
  refine ⟨?_, ?_, ?_, ?_, ?_, ?_, ?_, ?_, ?_⟩
  · simp [runSchedule, stepCaller, Conf.start, hinit', World.cache, stmtSetDidInit]
  · intro hpc
    exact flag_before_lookup_run h e Lof sched (Conf.start w)
      (by intro j hj; simp [Conf.start] at hj) i hpc
  · show ((invokeAll h e (L :: Ls) w).2.statics e.site).did_init = true
    rw [hs]
  · show ((invokeAll h e (L :: Ls) w).2.statics e.site).const_value = h.nil
    rw [hs]
  · rw [invokeAll_returns]
    rfl
  · rw [invokeAll_miss_lua h e L Ls w hinit', hnil', hfail]
  · rw [invokeAll_miss_engine h e L Ls w hinit', hnil']
  · rw [invokeAll_miss_trace h e L Ls w hinit', hnil', hfail, pushedValues_append,
      pushedValues_append, pushedValues_pushes]
    simp [pushedValues]
  · rw [invokeAll_miss_trace h e L Ls w hinit', countLookups_append, countLookups_append,
      countLookups_pushes]
    simp [countLookups]

theorem failed_lookup_not_retried_witness :
    ((World.init deafHost 0 []).cache demoZero).did_init = false ∧
    ((World.init deafHost 0 []).cache demoZero).const_value = deafHost.nil ∧
    (deafHost.variant_get_constant_value deafHost.VECTOR2 demoZero.const_name deafHost.nil
      (World.init deafHost 0 []).engine).1 = deafHost.nil ∧
    (((runSchedule deafHost demoZero id [0, 0] (Conf.start (World.init deafHost 0 []))).pc 0
        = PC.atLookup ∧
      ((runSchedule deafHost demoZero id [0, 0]
        (Conf.start (World.init deafHost 0 []))).world.cache demoZero).did_init = true ∧
      (runSchedule deafHost demoZero id [0, 0]
        (Conf.start (World.init deafHost 0 []))).world.engine = 0) ∧
    ((runSchedule deafHost demoZero id [1, 0, 1, 0]
        (Conf.start (World.init deafHost 0 []))).pc 0 = PC.atLookup →
      ((runSchedule deafHost demoZero id [1, 0, 1, 0]
        (Conf.start (World.init deafHost 0 []))).world.cache demoZero).did_init = true) ∧
    ((invokeAll deafHost demoZero (7 :: [8, 9]) (World.init deafHost 0 [])).2.cache
      demoZero).did_init = true ∧
    ((invokeAll deafHost demoZero (7 :: [8, 9]) (World.init deafHost 0 [])).2.cache
      demoZero).const_value = 0 ∧
    (invokeAll deafHost demoZero (7 :: [8, 9]) (World.init deafHost 0 [])).1 = [1, 1, 1] ∧
    (invokeAll deafHost demoZero (7 :: [8, 9]) (World.init deafHost 0 [])).2.lua = [0, 0, 0] ∧
    (invokeAll deafHost demoZero (7 :: [8, 9]) (World.init deafHost 0 [])).2.engine = 1 ∧
    pushedValues (invokeAll deafHost demoZero (7 :: [8, 9]) (World.init deafHost 0 [])).2.trace
      = [0, 0, 0] ∧
    countLookups (invokeAll deafHost demoZero (7 :: [8, 9]) (World.init deafHost 0 [])).2.trace
      = 1) :=
  ⟨rfl, rfl, rfl,
    failed_lookup_not_retried deafHost demoZero (World.init deafHost 0 []) 7 [8, 9] id
      [1, 0, 1, 0] 0 rfl rfl rfl⟩

end LuaGD
